import Mathlib

/-!
Verification of the synthetic market-data engine of the
`jf-digital-assets-intelligence` repository.

The development is a shallow embedding of the TypeScript sources
`src/data/synthetic/generator.ts`, `src/data/synthetic/events.ts` and
`src/data/synthetic/SyntheticDataProvider.ts`:

* JavaScript numbers are modelled as rationals (`ℚ`); the transcendental
  library calls `Math.log` and `Math.sqrt` are passed in as function
  parameters, since no claim depends on their values.
* JavaScript timestamps (`Date.getTime()`) are modelled as rationals
  counting milliseconds.
* Out-of-range array reads, which yield `undefined` in JavaScript and make
  every later numeric operation `NaN` (or throw on member access), are
  modelled with `Option`: a read out of range is `none`, and a computation
  that consumed such a read is `none` / `Except.error`.
* `Math.random()` draws are modelled as an explicit stream `ℕ → ℚ` of
  uniform values, one entry per call in program order.
* Arrays that the provider always keeps aligned to the shared daily date
  axis are generalised to total index functions `ℕ → ℚ` where a claim
  quantifies over all inputs and never reads out of range.
-/

/-! ## Regime process (`generator.ts`, `generateRegimes` and helpers) -/

inductive RegimeType where
  | bull
  | bear
  | sideways
deriving DecidableEq

/-- `MarketRegime` from `generator.ts`; the source field `end` is called
`stop` here because `end` is a Lean keyword.  Times are in milliseconds. -/
structure MarketRegime where
  start : ℚ
  stop : ℚ
  type : RegimeType
  volatility : ℚ
deriving DecidableEq

/-- `selectRegimeType`: first regime is drawn by `Math.random() > 0.5`,
later ones by the cumulative-threshold Markov table on one uniform draw. -/
def selectRegimeType (last : Option RegimeType) (r : ℚ) : RegimeType :=
  match last with
  | none => if (0.5 : ℚ) < r then .bull else .bear
  | some .bull => if r < 0.1 then .bear else if r < 0.3 then .sideways else .bull
  | some .bear => if r < 0.15 then .bull else if r < 0.35 then .sideways else .bear
  | some .sideways => if r < 0.4 then .bull else if r < 0.7 then .bear else .sideways

/-- `daysToMs` helper from `getRegimeDuration`. -/
def daysToMs (days : ℚ) : ℚ := days * 24 * 60 * 60 * 1000

/-- `getRegimeDuration`: duration in milliseconds from one uniform draw. -/
def getRegimeDuration (t : RegimeType) (r : ℚ) : ℚ :=
  match t with
  | .bull => daysToMs (30 + r * 150)
  | .bear => daysToMs (20 + r * 70)
  | .sideways => daysToMs (15 + r * 45)

/-- `getRegimeVolatility`: annualised volatility band from one uniform draw. -/
def getRegimeVolatility (t : RegimeType) (r : ℚ) : ℚ :=
  match t with
  | .bull => 40 + r * 30
  | .bear => 60 + r * 40
  | .sideways => 25 + r * 25

/-- The `while (currentDate.getTime() < endTime)` loop of `generateRegimes`,
with explicit fuel (the source loop always terminates because every duration
is at least 15 days).  `k` indexes the `Math.random()` stream: the loop body
makes three draws per iteration.  The accumulator is kept most-recent-first
and reversed on exit. -/
def generateRegimesAux (endTime : ℚ) (rand : ℕ → ℚ) :
    ℕ → ℚ → ℕ → List MarketRegime → List MarketRegime
  | 0, _, _, acc => acc.reverse
  | fuel + 1, current, k, acc =>
    if current < endTime then
      let ty := selectRegimeType (acc.head?.map MarketRegime.type) (rand k)
      let dur := getRegimeDuration ty (rand (k + 1))
      let vol := getRegimeVolatility ty (rand (k + 2))
      let regimeEnd := current + dur
      let reg : MarketRegime :=
        ⟨current, if endTime < regimeEnd then endTime else regimeEnd, ty, vol⟩
      generateRegimesAux endTime rand fuel regimeEnd (k + 3) (reg :: acc)
    else acc.reverse

/-- Enough loop iterations: every regime advances the cursor by at least
15 days, so this fuel is never exhausted before the cursor passes the end. -/
def regimesFuel (startTime endTime : ℚ) : ℕ :=
  (⌈(endTime - startTime) / daysToMs 15⌉).toNat + 1

/-- `generateRegimes(start, end)` from `generator.ts`. -/
def generateRegimes (startTime endTime : ℚ) (rand : ℕ → ℚ) : List MarketRegime :=
  generateRegimesAux endTime rand (regimesFuel startTime endTime) startTime 0 []

/-- `getRegimeAtDate`: `regimes.find(r => date >= r.start && date <= r.end)`
with fallback to `regimes[0]` (`none` only when the list is empty, where the
source would yield `undefined`). -/
def getRegimeAtDate (regimes : List MarketRegime) (date : ℚ) : Option MarketRegime :=
  match regimes.find? (fun r => decide (r.start ≤ date) && decide (date ≤ r.stop)) with
  | some r => some r
  | none => regimes.head?

/-! ## Volatility (`generator.ts`, `generateVolatility`) -/

/-- A JavaScript indexed array read: `undefined` out of range is `none`. -/
def jsGetQ (xs : List ℚ) (i : ℤ) : Option ℚ :=
  if h : 0 ≤ i ∧ i.toNat < xs.length then some (xs.get ⟨i.toNat, h.2⟩) else none

/-- The inner loop of `generateVolatility`:
`for (j = i - window; j < i; j++) returns.push(Math.log(prices[j] / prices[j-1]))`.
Reading `prices[-1]` (JavaScript `undefined`, so the pushed value is `NaN`)
makes the whole window `none`. -/
def logReturns (log : ℚ → ℚ) (prices : List ℚ) : List ℤ → Option (List ℚ)
  | [] => some []
  | j :: rest =>
    match jsGetQ prices j, jsGetQ prices (j - 1) with
    | some p1, some p0 =>
      match logReturns log prices rest with
      | some l => some (log (p1 / p0) :: l)
      | none => none
    | _, _ => none

/-- `generateVolatility(prices, dailyDates)`.  `regimeVol i` stands for
`getRegimeAtDate(dailyDates[i]).volatility`; `log`/`sqrt` stand for
`Math.log`/`Math.sqrt`.  An entry is `none` exactly when the source
computes `NaN` from an out-of-range read. -/
def generateVolatility (log sqrt : ℚ → ℚ) (regimeVol : ℕ → ℚ)
    (prices : List ℚ) (numDays : ℕ) : List (Option ℚ) :=
  (List.range numDays).map (fun i =>
    if i < 30 then some (regimeVol i)
    else
      match logReturns log prices ((List.range 30).map (fun k : ℕ => (i : ℤ) - 30 + (k : ℤ))) with
      | none => none
      | some returns =>
        let mean := returns.sum / (returns.length : ℚ)
        let variance := (returns.map (fun r => (r - mean) ^ 2)).sum / (returns.length : ℚ)
        let realizedVol := sqrt (variance * 252) * 100
        some (0.7 * realizedVol + 0.3 * regimeVol i))

/-! ## Drawdown (`generator.ts`, `generateDrawdown`) -/

/-- The `prices.forEach` body of `generateDrawdown`, carrying the running
peak. -/
def ddAux (peak : ℚ) : List ℚ → List ℚ
  | [] => []
  | p :: rest => (p - max peak p) / max peak p * 100 :: ddAux (max peak p) rest

/-- `generateDrawdown(prices)`: the peak starts at `prices[0]`. -/
def generateDrawdown (prices : List ℚ) : List ℚ :=
  ddAux (prices.headD 0) prices

/-- The running peak of the first `i + 1` prices, seeded like the source
with `prices[0]` (specification-side definition used to state C9). -/
def peakAt (prices : List ℚ) (i : ℕ) : ℚ :=
  (prices.take (i + 1)).foldl max (prices.headD 0)

/-! ## Liquidity stress (`generator.ts`, `generateLiquidityStress`) -/

/-- `volScore = Math.min(100, (vol / 100) * 100)` — capped above only. -/
def volScoreOf (vol : ℚ) : ℚ := min 100 (vol / 100 * 100)

/-- `levScore = Math.max(0, 100 - leverage[i] * 4)` — floored below only. -/
def levScoreOf (lev : ℚ) : ℚ := max 0 (100 - lev * 4)

/-- `volScore2 = Math.max(0, 100 - (volume[i] / 100) * 50)` — floored below
only. -/
def volumeScoreOf (volume : ℚ) : ℚ := max 0 (100 - volume / 100 * 50)

/-- Body of the `volatility.map` in `generateLiquidityStress`: the weighted
composite followed by the final clamp to `[0, 100]`. -/
def liquidityStressAt (vol lev volume : ℚ) : ℚ :=
  max 0 (min 100 (volScoreOf vol * 0.4 + levScoreOf lev * 0.3 + volumeScoreOf volume * 0.3))

/-- The indexed `volatility.map((vol, i) => ...)` of
`generateLiquidityStress`. -/
def liquidityStressAux (leverage volume : ℕ → ℚ) : List ℚ → ℕ → List ℚ
  | [], _ => []
  | vol :: rest, i =>
    liquidityStressAt vol (leverage i) (volume i) :: liquidityStressAux leverage volume rest (i + 1)

/-- `generateLiquidityStress(volatility, leverage, volume)`; the leverage and
volume arrays, index-aligned with `volatility` in the provider, are modelled
as index functions. -/
def generateLiquidityStress (volatility : List ℚ) (leverage volume : ℕ → ℚ) : List ℚ :=
  liquidityStressAux leverage volume volatility 0

/-! ## Data provider (`SyntheticDataProvider.ts`) -/

/-- The label/unit/notes part of a series descriptor. -/
structure MetaInfo where
  label : String
  unit : String
  notes : String
deriving DecidableEq

/-- The static `metadataMap` lookup table inside `getMetadata`. -/
def metadataMap (metricId : String) : Option MetaInfo :=
  if metricId = "btc_price" then
    some ⟨"BTC Price", "USD", "Bitcoin spot price with regime-based dynamics"⟩
  else if metricId = "eth_price" then
    some ⟨"ETH Price", "USD", "Ethereum spot price correlated to BTC"⟩
  else if metricId = "total_crypto_market_cap" then
    some ⟨"Total Crypto Market Cap", "Trillions USD",
      "Aggregate market capitalization of digital assets"⟩
  else if metricId = "volatility_proxy" then
    some ⟨"Volatility Proxy", "% Annualized", "30-day realized volatility"⟩
  else if metricId = "market_drawdown_percent" then
    some ⟨"Market Drawdown", "%", "Drawdown from peak price"⟩
  else if metricId = "stablecoin_total_supply" then
    some ⟨"Stablecoin Total Supply", "Billions USD",
      "Aggregate stablecoin supply as dollar rail proxy"⟩
  else if metricId = "stablecoin_net_issuance_30d" then
    some ⟨"Stablecoin Net Issuance (30d)", "Billions USD",
      "30-day change in stablecoin supply"⟩
  else if metricId = "stablecoin_velocity_proxy" then
    some ⟨"Stablecoin Velocity Proxy", "Index",
      "Normalized velocity of stablecoin circulation"⟩
  else if metricId = "on_chain_transfer_volume" then
    some ⟨"On-Chain Transfer Volume", "Billions USD",
      "Daily on-chain transaction volume"⟩
  else if metricId = "active_addresses_proxy" then
    some ⟨"Active Addresses Proxy", "Index", "Normalized active address count"⟩
  else if metricId = "network_fee_proxy" then
    some ⟨"Network Fee Proxy", "Millions USD",
      "Daily network fees as congestion indicator"⟩
  else if metricId = "btc_etf_net_flows" then
    some ⟨"BTC ETF Net Flows", "Millions USD",
      "Daily net institutional ETF flows"⟩
  else if metricId = "btc_etf_cumulative_flows" then
    some ⟨"BTC ETF Cumulative Flows", "Billions USD",
      "Cumulative institutional ETF positioning"⟩
  else if metricId = "etf_flow_momentum_score" then
    some ⟨"ETF Flow Momentum Score", "Score 0-100",
      "20-day flow momentum indicator"⟩
  else if metricId = "futures_open_interest" then
    some ⟨"Futures Open Interest", "Billions USD",
      "Aggregate derivatives open interest"⟩
  else if metricId = "leverage_ratio_proxy" then
    some ⟨"Leverage Ratio Proxy", "%", "Open interest as % of market cap"⟩
  else if metricId = "funding_rate_proxy" then
    some ⟨"Funding Rate Proxy", "% APR", "Perpetual futures funding rate"⟩
  else if metricId = "liquidation_volume_proxy" then
    some ⟨"Liquidation Volume Proxy", "Billions USD",
      "Estimated daily liquidation volume"⟩
  else if metricId = "risk_regime" then
    some ⟨"Risk Regime", "Categorical",
      "Market risk classification: risk_on, neutral, risk_off"⟩
  else if metricId = "crypto_liquidity_stress_index" then
    some ⟨"Crypto Liquidity Stress Index", "Score 0-100",
      "Composite stress indicator from volatility, leverage, and volume"⟩
  else none

/-- `getMetadata(metricId)`: never fails, falls back to
`{label: metricId, unit: '', notes: ''}`. -/
def getMetadata (metricId : String) : MetaInfo :=
  (metadataMap metricId).getD ⟨metricId, "", ""⟩

/-- The 20 metric keys that `generateAllData` writes into `cachedData`
(`this.cachedData.set(...)` lines of `SyntheticDataProvider.ts`). -/
def cachedKeys : List String :=
  ["btc_price", "eth_price", "total_crypto_market_cap", "volatility_proxy",
   "market_drawdown_percent", "stablecoin_total_supply",
   "stablecoin_net_issuance_30d", "stablecoin_velocity_proxy",
   "on_chain_transfer_volume", "active_addresses_proxy", "network_fee_proxy",
   "btc_etf_net_flows", "btc_etf_cumulative_flows", "etf_flow_momentum_score",
   "futures_open_interest", "leverage_ratio_proxy", "funding_rate_proxy",
   "liquidation_volume_proxy", "risk_regime", "crypto_liquidity_stress_index"]

/-- One observation of the returned series; `value` is `none` when the
source pairs the date with an out-of-range `values[startIdx + i]`. -/
structure Obs where
  date : ℚ
  value : Option ℚ
deriving DecidableEq

/-- The wire shape returned by `getSeries`. -/
structure TimeSeries where
  metric_id : String
  label : String
  unit : String
  frequency : String
  observations : List Obs
  source_type : String
  notes : String
deriving DecidableEq

/-- The optional `startDate` / `endDate` of `GetSeriesParams`, as parsed
timestamps. -/
structure SeriesParams where
  startDate : Option ℚ
  endDate : Option ℚ

/-- `Array.prototype.findIndex`, with `none` for the source's `-1`. -/
def findIdxQ (p : ℚ → Bool) : List ℚ → Option ℕ
  | [] => none
  | d :: rest => if p d then some 0 else (findIdxQ p rest).map (· + 1)

/-- The `.map((date, i) => ({date, value: values[startIdx + i]}))` step of
`getSeries`, applied to the sliced date list. -/
def buildObs (values : List ℚ) (startIdx : ℕ) : List ℚ → ℕ → List Obs
  | [], _ => []
  | d :: rest, i => ⟨d, values.get? (startIdx + i)⟩ :: buildObs values startIdx rest (i + 1)

/-- `getSeries(metricId, params)` over an abstract cache.  The source slices
`dailyDates.slice(startIdx, endIdx + 1)` where `startIdx` is the first index
with date `>= startDate` (fallback `0`) and `endIdx` is the first index with
date `> endDate` (fallback `length - 1`). -/
def getSeries (cache : String → Option (List ℚ)) (dailyDates : List ℚ)
    (metricId : String) (params : SeriesParams) : Except String TimeSeries :=
  let metadata := getMetadata metricId
  match cache metricId with
  | none => Except.error (String.append "Metric not found: " metricId)
  | some values =>
    let startIdx :=
      match params.startDate with
      | none => 0
      | some s => (findIdxQ (fun d => decide (s ≤ d)) dailyDates).getD 0
    let endIdx :=
      match params.endDate with
      | none => dailyDates.length - 1
      | some e => (findIdxQ (fun d => decide (e < d)) dailyDates).getD (dailyDates.length - 1)
    let observations :=
      buildObs values startIdx ((dailyDates.drop startIdx).take (endIdx + 1 - startIdx)) 0
    Except.ok
      { metric_id := metricId
        label := if metadata.label = "" then metricId else metadata.label
        unit := metadata.unit
        frequency := "daily"
        observations := observations
        source_type := "synthetic"
        notes := metadata.notes }

/-- `getLatest(metricId)`: `values[values.length - 1]` (an `Option` because
the read would be `undefined` on an empty array). -/
def getLatest (cache : String → Option (List ℚ)) (metricId : String) :
    Except String (Option ℚ) :=
  match cache metricId with
  | none => Except.error (String.append "Metric not found: " metricId)
  | some values => Except.ok (values.get? (values.length - 1))

/-- Dates of the observations of a `getSeries` result (empty on failure);
used to state window claims. -/
def obsDatesOf (r : Except String TimeSeries) : List ℚ :=
  match r with
  | .ok ts => ts.observations.map Obs.date
  | .error _ => []

/-- Whether a `getSeries` call succeeded (no exception thrown). -/
def seriesOk (r : Except String TimeSeries) : Bool :=
  match r with
  | .ok _ => true
  | .error _ => false

/-! ## Event detector (`events.ts`) -/

/-- `EventDefinition` from `events.ts`. -/
structure EventDefinition where
  event_id : String
  label : String
  category : String
  severity : ℕ
  description : String
deriving DecidableEq

/-- The fixed event catalog `EVENT_DEFINITIONS`. -/
def EVENT_DEFINITIONS : List EventDefinition :=
  [⟨"etf_inflow_surge", "ETF Inflow Surge", "market", 3,
    "Institutional ETF inflows accelerate, driving sustained buying pressure across spot and derivatives markets."⟩,
   ⟨"leverage_build_up", "Leverage Build-Up", "microstructure", 4,
    "Derivatives open interest and funding rates climb, indicating excessive leverage accumulation in the system."⟩,
   ⟨"forced_deleveraging", "Forced Deleveraging", "liquidity", 5,
    "Cascading liquidations trigger violent deleveraging, widening spreads and fragmenting liquidity across venues."⟩,
   ⟨"stablecoin_supply_jump", "Stablecoin Supply Jump", "liquidity", 2,
    "Rapid stablecoin issuance signals capital inflows and expanding dollar-denominated liquidity rails."⟩,
   ⟨"liquidity_drought", "Liquidity Drought", "liquidity", 4,
    "On-chain volume and active addresses decline sharply, network fees collapse, indicating participant exodus."⟩,
   ⟨"regulatory_shock", "Regulatory Shock", "regulation", 5,
    "Unexpected regulatory action creates uncertainty, triggering risk-off positioning and capital flight."⟩,
   ⟨"macro_risk_off", "Macro Risk-Off", "policy", 4,
    "Broader macro risk-off regime compresses crypto correlations to traditional risk assets."⟩,
   ⟨"policy_pivot_rally", "Policy Pivot Rally", "policy", 3,
    "Central bank policy pivot drives liquidity expansion, benefiting digital assets as duration proxies."⟩,
   ⟨"exchange_liquidity_crisis", "Exchange Liquidity Crisis", "microstructure", 5,
    "Major exchange faces solvency concerns, fragmenting liquidity and spiking basis between venues."⟩,
   ⟨"institutional_capitulation", "Institutional Capitulation", "market", 4,
    "Large-scale institutional redemptions accelerate drawdown, marking potential regime shift."⟩]

/-- The `Event` wire shape, with the timestamp as a rational. -/
structure Event where
  event_id : String
  label : String
  date : ℚ
  category : String
  severity : ℕ
  description : String
deriving DecidableEq

/-- `createEvent(eventId, date)`: looks the id up in the catalog; the source
throws when it is absent, modelled as `none`. -/
def createEvent (eventId : String) (date : ℚ) : Option Event :=
  (EVENT_DEFINITIONS.find? (fun d => decide (d.event_id = eventId))).map
    (fun dfn => ⟨dfn.event_id, dfn.label, date, dfn.category, dfn.severity, dfn.description⟩)

/-- The eight event ids the condition scan can emit. -/
def scanIds : List String :=
  ["etf_inflow_surge", "leverage_build_up", "forced_deleveraging",
   "stablecoin_supply_jump", "liquidity_drought", "regulatory_shock",
   "macro_risk_off", "policy_pivot_rally"]

/-- State of the `dailyDates.forEach` scan loop in
`generateSyntheticEvents`: the emitted `(day index, event id)` pairs in
emission order, and the `lastEventIndex` cursor (initially `-20`). -/
structure ScanState where
  events : List (ℕ × String)
  lastEventIndex : ℤ

/-- `events.filter(e => e.event_id === id).length`. -/
def countId (evs : List (ℕ × String)) (id : String) : ℕ :=
  (evs.filter (fun e => decide (e.2 = id))).length

/-- The scalar locals computed by the scan body at an eligible day `i`:
`priceChange`, `volChange`, `recentETFFlows` (`etfFlows.slice(i - 10, i)`
summed, since `i ≥ 30` makes `Math.max(0, i - 10) = i - 10`) and
`stableSupplyChange`. -/
def priceChangeAt (P : ℕ → ℚ) (i : ℕ) : ℚ := (P i / P (i - 30) - 1) * 100

def volChangeAt (V : ℕ → ℚ) (i : ℕ) : ℚ := V i - V (i - 1)

def recentETFFlowsAt (F : ℕ → ℚ) (i : ℕ) : ℚ :=
  ((List.range 10).map (fun k => F (i - 10 + k))).sum

def stableSupplyChangeAt (S : ℕ → ℚ) (i : ℕ) : ℚ :=
  if 30 < i then S i - S (i - 30) else 0

/-- One iteration of the scan loop at day `i`.  `P V L F S` are the
`btcPrices`, `volatility`, `leverage`, `etfFlows` and `stablecoinSupply`
arrays (index-aligned with the date axis in the provider, hence modelled as
index functions), and `R i` is the `Math.random()` draw of day `i` used by
the regulatory-shock rule. -/
def scanStep (P V L F S R : ℕ → ℚ) (st : ScanState) (i : ℕ) : ScanState :=
  if i < 30 ∨ (i : ℤ) - st.lastEventIndex < 15 then st
  else if 1500 < recentETFFlowsAt F i ∧ countId st.events "etf_inflow_surge" = 0 then
    ⟨st.events ++ [(i, "etf_inflow_surge")], (i : ℤ)⟩
  else if 20 < L i ∧ volChangeAt V i < 5 ∧ countId st.events "leverage_build_up" < 2 then
    ⟨st.events ++ [(i, "leverage_build_up")], (i : ℤ)⟩
  else if priceChangeAt P i < -15 ∧ L i < 13 ∧ st.lastEventIndex + 20 < (i : ℤ) then
    ⟨st.events ++ [(i, "forced_deleveraging")], (i : ℤ)⟩
  else if 8 < stableSupplyChangeAt S i ∧ countId st.events "stablecoin_supply_jump" < 2 then
    ⟨st.events ++ [(i, "stablecoin_supply_jump")], (i : ℤ)⟩
  else if priceChangeAt P i < -10 ∧ stableSupplyChangeAt S i < -5 ∧
      countId st.events "liquidity_drought" < 2 then
    ⟨st.events ++ [(i, "liquidity_drought")], (i : ℤ)⟩
  else if R i < 0.002 ∧ st.lastEventIndex + 30 < (i : ℤ) ∧
      countId st.events "regulatory_shock" = 0 then
    ⟨st.events ++ [(i, "regulatory_shock")], (i : ℤ)⟩
  else if priceChangeAt P i < -20 ∧ 80 < V i ∧ countId st.events "macro_risk_off" < 2 then
    ⟨st.events ++ [(i, "macro_risk_off")], (i : ℤ)⟩
  else if 20 < priceChangeAt P i ∧ 180 < i ∧ countId st.events "policy_pivot_rally" < 2 then
    ⟨st.events ++ [(i, "policy_pivot_rally")], (i : ℤ)⟩
  else st

/-- The whole condition scan over day indices `0, …, len - 1`. -/
def scanEvents (P V L F S R : ℕ → ℚ) (len : ℕ) : ScanState :=
  (List.range len).foldl (scanStep P V L F S R) ⟨[], -20⟩

/-- Two emissions are at least 15 day indices apart (and in ascending
order). -/
def gapOK (a b : ℕ × String) : Prop := a.1 + 15 ≤ b.1

/-- The per-rule extra spacing: a `forced_deleveraging` emission lies at
least 20 days, and a `regulatory_shock` at least 30 days, after the
previous emission. -/
def specialOK (a b : ℕ × String) : Prop :=
  (b.2 = "forced_deleveraging" → a.1 + 20 ≤ b.1) ∧
  (b.2 = "regulatory_shock" → a.1 + 30 ≤ b.1)

/-- Invariant of the scan loop: emissions are pairwise spaced, specially
spaced rule-wise, below the `lastEventIndex` cursor, in range, drawn from
the eight scannable ids, and the cursor is the last emission's index. -/
def ScanInv (len : ℕ) (st : ScanState) : Prop :=
  st.events.Pairwise gapOK ∧
  st.events.Chain' specialOK ∧
  (∀ ev ∈ st.events, (ev.1 : ℤ) ≤ st.lastEventIndex ∧ ev.1 < len ∧ ev.2 ∈ scanIds) ∧
  (∀ ev ∈ st.events.getLast?, (ev.1 : ℤ) = st.lastEventIndex)

/-- Turns the scanned `(index, id)` pairs into `Event` values dated with
`dailyDates[i]`, as the scan loop does with `createEvent(id, date)`. -/
def buildEvents (dates : List ℚ) : List (ℕ × String) → Except String (List Event)
  | [] => .ok []
  | e :: rest =>
    match dates.get? e.1 with
    | none => .error "TypeError: cannot read toISOString of undefined"
    | some d =>
      match createEvent e.2 d with
      | none => .error (String.append "Event definition not found: " e.2)
      | some ev =>
        match buildEvents dates rest with
        | .error msg => .error msg
        | .ok evs => .ok (ev :: evs)

/-- The backfill date index
`Math.floor(dailyDates.length / (8 - events.length) * (idx + 1))`, where
`count` is the current `events.length` (re-read after every push, so the
denominator shrinks as events are appended). -/
def backfillIndex (len count idx : ℕ) : ℤ :=
  ⌊(len : ℚ) / ((8 : ℚ) - (count : ℚ)) * ((idx : ℚ) + 1)⌋

/-- The array read `dailyDates[backfillIndex ...]`: `none` stands for the
JavaScript `undefined` of an out-of-range read.  (Along every reachable call
the denominator `8 - count` stays in `[1, 8]`, so the rational division
never hits a zero denominator.) -/
def backfillRead (dates : List ℚ) (count idx : ℕ) : Option ℚ :=
  if 0 ≤ backfillIndex dates.length count idx then
    dates.get? (backfillIndex dates.length count idx).toNat
  else none

/-- The backfill `missingEvents.slice(0, 8 - events.length).forEach` loop.
Reading `dailyDates[...]` out of range yields `undefined` in the source and
the subsequent `date.toISOString()` inside `createEvent` throws; that crash
is the `Except.error`. -/
def backfillLoop (dates : List ℚ) :
    List EventDefinition → List Event → ℕ → Except String (List Event)
  | [], events, _ => .ok events
  | dfn :: rest, events, idx =>
    match backfillRead dates events.length idx with
    | none => .error "TypeError: cannot read toISOString of undefined"
    | some d =>
      match createEvent dfn.event_id d with
      | none => .error (String.append "Event definition not found: " dfn.event_id)
      | some ev => backfillLoop dates rest (events ++ [ev]) (idx + 1)

/-- Insertion step of the final date-ascending sort. -/
def insertByDate (ev : Event) : List Event → List Event
  | [] => [ev]
  | x :: xs => if ev.date ≤ x.date then ev :: x :: xs else x :: insertByDate ev xs

/-- The final `events.sort((a, b) => dateA - dateB)`. -/
def sortByDate : List Event → List Event
  | [] => []
  | x :: xs => insertByDate x (sortByDate xs)

/-- `generateSyntheticEvents(dailyDates, btcPrices, volatility, leverage,
etfFlows, stablecoinSupply)`: condition scan, backfill to eight events when
needed, then sort by date. -/
def generateSyntheticEvents (dates : List ℚ) (P V L F S R : ℕ → ℚ) :
    Except String (List Event) :=
  match buildEvents dates (scanEvents P V L F S R dates.length).events with
  | .error msg => .error msg
  | .ok events =>
    if events.length < 8 then
      let missing := EVENT_DEFINITIONS.filter
        (fun dfn => ! events.any (fun e => e.event_id == dfn.event_id))
      match backfillLoop dates (missing.take (8 - events.length)) events 0 with
      | .error msg => .error msg
      | .ok events2 => .ok (sortByDate events2)
    else .ok (sortByDate events)

/-! ## Helper lemmas -/

lemma liquidityStressAt_nonneg (v l u : ℚ) : 0 ≤ liquidityStressAt v l u :=
  le_max_left 0 _

lemma liquidityStressAt_le_hundred (v l u : ℚ) : liquidityStressAt v l u ≤ 100 :=
  max_le (by norm_num) (min_le_left _ _)

lemma liquidityStressAt_mono {v v' : ℚ} (l u : ℚ) (h : v ≤ v') :
    liquidityStressAt v l u ≤ liquidityStressAt v' l u := by
  have hv : volScoreOf v ≤ volScoreOf v' := by
    unfold volScoreOf
    apply min_le_min le_rfl
    have : v / 100 ≤ v' / 100 := by linarith
    linarith
  unfold liquidityStressAt
  apply max_le_max le_rfl
  apply min_le_min le_rfl
  nlinarith [hv]

lemma liquidityStressAux_mem (leverage volume : ℕ → ℚ) :
    ∀ (l : List ℚ) (i : ℕ) (x : ℚ), x ∈ liquidityStressAux leverage volume l i →
      0 ≤ x ∧ x ≤ 100 := by
  intro l
  induction l with
  | nil => intro i x hx; cases hx
  | cons v rest ih =>
    intro i x hx
    rcases List.mem_cons.mp hx with h | h
    · subst h; exact ⟨liquidityStressAt_nonneg _ _ _, liquidityStressAt_le_hundred _ _ _⟩
    · exact ih (i + 1) x h

lemma logReturns_none (log : ℚ → ℚ) (prices : List ℚ) :
    ∀ l : List ℤ, (∃ j ∈ l, jsGetQ prices (j - 1) = none) →
      logReturns log prices l = none := by
  intro l
  induction l with
  | nil =>
    rintro ⟨j, hj, _⟩
    cases hj
  | cons j0 rest ih =>
    rintro ⟨j, hj, hnone⟩
    rcases List.mem_cons.mp hj with rfl | hmem
    · unfold logReturns
      cases h0 : jsGetQ prices j <;> simp [h0, hnone]
    · unfold logReturns
      cases h0 : jsGetQ prices j0 with
      | none => rfl
      | some p1 =>
        cases h1 : jsGetQ prices (j0 - 1) with
        | none => simp [h0, h1]
        | some p0 =>
          simp only [h0, h1]
          rw [ih ⟨j, hmem, hnone⟩]

lemma ddAux_length (peak : ℚ) (l : List ℚ) : (ddAux peak l).length = l.length := by
  induction l generalizing peak with
  | nil => rfl
  | cons p rest ih => simp [ddAux, ih]

lemma ddAux_get? (l : List ℚ) :
    ∀ (peak : ℚ) (i : ℕ) (hi : i < l.length),
      (ddAux peak l).get? i =
        some ((l.get ⟨i, hi⟩ - (l.take (i + 1)).foldl max peak) /
          ((l.take (i + 1)).foldl max peak) * 100) := by
  induction l with
  | nil => intro peak i hi; cases hi
  | cons p rest ih =>
    intro peak i hi
    cases i with
    | zero => simp [ddAux]
    | succ n =>
      have hn : n < rest.length := by simpa using hi
      have hrec := ih (max peak p) n hn
      rw [show ddAux peak (p :: rest) =
        (p - max peak p) / max peak p * 100 :: ddAux (max peak p) rest from rfl]
      rw [List.get?_cons_succ, hrec]
      rfl

lemma ddAux_nonpos (l : List ℚ) :
    ∀ (peak : ℚ), 0 < peak → (∀ p ∈ l, 0 < p) → ∀ x ∈ ddAux peak l, x ≤ 0 := by
  induction l with
  | nil => intro peak _ _ x hx; cases hx
  | cons p rest ih =>
    intro peak hpk hl x hx
    have hp : 0 < p := hl p (List.mem_cons_self p rest)
    have hpk' : 0 < max peak p := lt_max_of_lt_left hpk
    rcases List.mem_cons.mp hx with h | h
    · subst h
      have hnum : p - max peak p ≤ 0 := sub_nonpos.mpr (le_max_right peak p)
      have hdiv : (p - max peak p) / max peak p ≤ 0 :=
        div_nonpos_of_nonpos_of_nonneg hnum (le_of_lt hpk')
      linarith
    · exact ih (max peak p) hpk' (fun q hq => hl q (List.mem_cons_of_mem p hq)) x h

lemma foldl_max_le (b : ℚ) : ∀ (l : List ℚ) (seed : ℚ), seed ≤ b →
    (∀ x ∈ l, x ≤ b) → l.foldl max seed ≤ b := by
  intro l
  induction l with
  | nil => intro seed hs _; simpa using hs
  | cons p rest ih =>
    intro seed hs h
    have hp : p ≤ b := h p (List.mem_cons_self p rest)
    exact ih (max seed p) (max_le hs hp) (fun x hx => h x (List.mem_cons_of_mem p hx))

lemma le_foldl_max_seed : ∀ (l : List ℚ) (seed : ℚ), seed ≤ l.foldl max seed := by
  intro l
  induction l with
  | nil => intro seed; exact le_rfl
  | cons p rest ih =>
    intro seed
    exact le_trans (le_max_left seed p) (ih (max seed p))

lemma le_foldl_max : ∀ (l : List ℚ) (seed x : ℚ), x ∈ l → x ≤ l.foldl max seed := by
  intro l
  induction l with
  | nil => intro seed x hx; cases hx
  | cons p rest ih =>
    intro seed x hx
    rcases List.mem_cons.mp hx with h | h
    · subst h
      exact le_trans (le_max_right seed x) (le_foldl_max_seed rest (max seed x))
    · exact ih (max seed p) x h

lemma buildObs_map_date (values : List ℚ) (s : ℕ) :
    ∀ (l : List ℚ) (i : ℕ), (buildObs values s l i).map Obs.date = l := by
  intro l
  induction l with
  | nil => intro i; rfl
  | cons d rest ih => intro i; simp [buildObs, ih (i + 1)]

lemma findIdxQ_cons (p : ℚ → Bool) (d : ℚ) (rest : List ℚ) :
    findIdxQ p (d :: rest) = if p d then some 0 else (findIdxQ p rest).map (· + 1) := rfl

lemma findIdxQ_eq_none_iff (p : ℚ → Bool) :
    ∀ l : List ℚ, findIdxQ p l = none ↔ ∀ d ∈ l, ¬ p d := by
  intro l
  induction l with
  | nil => simp [findIdxQ]
  | cons d rest ih =>
    by_cases h : p d <;> simp [findIdxQ, h, ih]

lemma take_pred_succ (dates : List ℚ) : dates.take (dates.length - 1 + 1) = dates := by
  cases dates with
  | nil => rfl
  | cons d rest =>
    have h : (d :: rest).length - 1 + 1 = (d :: rest).length := by simp
    rw [h, List.take_length]

lemma metadataMap_eq_none {id : String} (hn : id ∉ cachedKeys) : metadataMap id = none := by
  have hne : ∀ k ∈ cachedKeys, ¬ id = k := fun k hk he => hn (he.symm ▸ hk)
  unfold metadataMap
  rw [if_neg (hne "btc_price" (by decide)),
    if_neg (hne "eth_price" (by decide)),
    if_neg (hne "total_crypto_market_cap" (by decide)),
    if_neg (hne "volatility_proxy" (by decide)),
    if_neg (hne "market_drawdown_percent" (by decide)),
    if_neg (hne "stablecoin_total_supply" (by decide)),
    if_neg (hne "stablecoin_net_issuance_30d" (by decide)),
    if_neg (hne "stablecoin_velocity_proxy" (by decide)),
    if_neg (hne "on_chain_transfer_volume" (by decide)),
    if_neg (hne "active_addresses_proxy" (by decide)),
    if_neg (hne "network_fee_proxy" (by decide)),
    if_neg (hne "btc_etf_net_flows" (by decide)),
    if_neg (hne "btc_etf_cumulative_flows" (by decide)),
    if_neg (hne "etf_flow_momentum_score" (by decide)),
    if_neg (hne "futures_open_interest" (by decide)),
    if_neg (hne "leverage_ratio_proxy" (by decide)),
    if_neg (hne "funding_rate_proxy" (by decide)),
    if_neg (hne "liquidation_volume_proxy" (by decide)),
    if_neg (hne "risk_regime" (by decide)),
    if_neg (hne "crypto_liquidity_stress_index" (by decide))]

/-! ## Claims -/

/-- C8 counterexample: the volatility sub-score is only capped above
(`Math.min(100, ...)`), not clamped to `[0, 100]` — at volatility `-50` it is
`-50`; the leverage sub-score is only floored below (`Math.max(0, ...)`) — at
leverage `-10` it is `140 > 100`.  So the sub-scores are not independently
clamped to `[0, 100]` before the weighted combination. -/
theorem spec2proof_C8_cex :
    volScoreOf (-50) = -50 ∧ ¬ (0 : ℚ) ≤ volScoreOf (-50) ∧
    levScoreOf (-10) = 140 ∧ ¬ levScoreOf (-10) ≤ 100 := by
  refine ⟨?_, ?_, ?_, ?_⟩ <;> norm_num [volScoreOf, levScoreOf]

/-- C8 (amended): each sub-score is clamped on one side only (the volatility
sub-score is capped above at 100, the leverage and volume sub-scores are
floored below at 0) before the `0.4/0.3/0.3` combination; every output value
of `generateLiquidityStress` lies in `[0, 100]` thanks to the final clamp,
and the pointwise output is monotonically non-decreasing in the volatility
input when leverage and volume are held fixed. -/
theorem spec2proof_C8 (volatility : List ℚ) (leverage volume : ℕ → ℚ)
    (v v' lev vol : ℚ) :
    volScoreOf v ≤ 100 ∧ 0 ≤ levScoreOf lev ∧ 0 ≤ volumeScoreOf vol ∧
    0 ≤ liquidityStressAt v lev vol ∧ liquidityStressAt v lev vol ≤ 100 ∧
    (v ≤ v' → liquidityStressAt v lev vol ≤ liquidityStressAt v' lev vol) ∧
    ∀ x ∈ generateLiquidityStress volatility leverage volume, 0 ≤ x ∧ x ≤ 100 := by
  refine ⟨min_le_left _ _, le_max_left _ _, le_max_left _ _,
    liquidityStressAt_nonneg _ _ _, liquidityStressAt_le_hundred _ _ _,
    fun h => liquidityStressAt_mono lev vol h,
    fun x hx => liquidityStressAux_mem leverage volume volatility 0 x hx⟩

/-- C8 witness: the amended theorem applied at a concrete input. -/
theorem spec2proof_C8_witness :
    liquidityStressAt 10 5 5 ≤ liquidityStressAt 20 5 5 ∧
    (0 ≤ liquidityStressAt 10 5 5 ∧ liquidityStressAt 10 5 5 ≤ 100) := by
  have h := spec2proof_C8 [10, 20] (fun _ => 5) (fun _ => 5) 10 20 5 5
  exact ⟨h.2.2.2.2.2.1 (by norm_num), h.2.2.2.1, h.2.2.2.2.1⟩

/-- C9: for a non-empty positive price series, `generateDrawdown` returns one
value per price, each equal to `(price - runningPeak) / runningPeak * 100`
with the peak tracked from the start of the series; every value is `≤ 0`, the
value is exactly `0` whenever the price attains a new running peak, and the
first value is `0`. -/
theorem spec2proof_C9 (prices : List ℚ) (hne : prices ≠ [])
    (hpos : ∀ p ∈ prices, 0 < p) :
    (generateDrawdown prices).length = prices.length ∧
    (∀ i, ∀ hi : i < prices.length,
      (generateDrawdown prices).get? i =
        some ((prices.get ⟨i, hi⟩ - peakAt prices i) / peakAt prices i * 100)) ∧
    (∀ x ∈ generateDrawdown prices, x ≤ 0) ∧
    (∀ i, ∀ hi : i < prices.length,
      (∀ j, ∀ hj : j < prices.length, j ≤ i →
        prices.get ⟨j, hj⟩ ≤ prices.get ⟨i, hi⟩) →
      (generateDrawdown prices).get? i = some 0) ∧
    (generateDrawdown prices).get? 0 = some 0 := by
  have hhead : prices.headD 0 ∈ prices := by
    cases prices with
    | nil => exact absurd rfl hne
    | cons p rest => exact List.mem_cons_self p rest
  have hseed : 0 < prices.headD 0 := hpos _ hhead
  have hget := ddAux_get? prices (prices.headD 0)
  have hchar : ∀ i, ∀ hi : i < prices.length,
      (generateDrawdown prices).get? i =
        some ((prices.get ⟨i, hi⟩ - peakAt prices i) / peakAt prices i * 100) := by
    intro i hi
    exact hget i hi
  have hzero : ∀ i, ∀ hi : i < prices.length,
      (∀ j, ∀ hj : j < prices.length, j ≤ i →
        prices.get ⟨j, hj⟩ ≤ prices.get ⟨i, hi⟩) →
      (generateDrawdown prices).get? i = some 0 := by
    intro i hi hdom
    have hpk : peakAt prices i = prices.get ⟨i, hi⟩ := by
      apply le_antisymm
      · apply foldl_max_le
        · cases prices with
          | nil => exact absurd rfl hne
          | cons p rest =>
            exact hdom 0 (by simp) (Nat.zero_le i)
        · intro x hx
          have hx' : x ∈ prices := List.take_subset _ _ hx
          rcases List.mem_iff_get.mp hx with ⟨⟨j, hj⟩, hxj⟩
          have hjlen : j < prices.length := lt_of_lt_of_le hj (by
            rw [List.length_take]
            exact min_le_right _ _)
          have hjtake : j < i + 1 := lt_of_lt_of_le hj (by
            rw [List.length_take]
            exact min_le_left _ _)
          have hgt : (prices.take (i + 1)).get ⟨j, hj⟩ = prices.get ⟨j, hjlen⟩ :=
            (List.get_take prices hjlen hjtake).symm
          rw [← hxj, hgt]
          exact hdom j hjlen (Nat.lt_succ_iff.mp hjtake)
      · apply le_foldl_max
        rw [List.get_take prices hi (Nat.lt_succ_self i)]
        exact List.get_mem _ _ _
    rw [hchar i hi, hpk]
    norm_num
  refine ⟨ddAux_length _ _, hchar, ?_, hzero, ?_⟩
  · exact ddAux_nonpos prices (prices.headD 0) hseed hpos
  · have h0 : 0 < prices.length := List.length_pos.mpr hne
    apply hzero 0 h0
    intro j hj hj0
    have : j = 0 := Nat.le_zero.mp hj0
    subst this
    exact le_rfl

/-- C9 witness: the spec's own example `[100, 90, 80, 95]`. -/
theorem spec2proof_C9_witness :
    (∀ x ∈ generateDrawdown [100, 90, 80, 95], x ≤ 0) ∧
    (generateDrawdown [100, 90, 80, 95]).get? 0 = some 0 := by
  have h := spec2proof_C9 [100, 90, 80, 95] (by decide) (by decide)
  exact ⟨h.2.2.1, h.2.2.2.2⟩

/-- C3: the claim fails on the code.  At index 30 the rolling window of
`generateVolatility` runs `j` from `i - window = 0`, so its first iteration
reads `prices[j - 1] = prices[-1]` — before the start of the price array.
In the source this makes `volatility[30]` `NaN` (not a well-defined number
in `[0, 150]`, and the repository's own test
`expect(vol).toBeGreaterThanOrEqual(0)` fails on it); in the embedding the
out-of-range read makes the entry `none`, for every price series and every
`log`/`sqrt`/regime-volatility input. -/
theorem spec2proof_C3 (log sqrt : ℚ → ℚ) (regimeVol : ℕ → ℚ) (prices : List ℚ)
    (numDays : ℕ) (h : 30 < numDays) :
    (generateVolatility log sqrt regimeVol prices numDays).get? 30 = some none := by
  unfold generateVolatility
  rw [List.get?_map, List.get?_range h]
  simp only [Option.map_some']
  rw [if_neg (by norm_num : ¬ (30 : ℕ) < 30)]
  have hmem : (0 : ℤ) ∈ (List.range 30).map (fun k : ℕ => ((30 : ℕ) : ℤ) - 30 + (k : ℤ)) :=
    List.mem_map.mpr ⟨0, by simp, by norm_num⟩
  have hread : jsGetQ prices ((0 : ℤ) - 1) = none := by
    unfold jsGetQ
    rw [dif_neg]
    intro hc
    exact absurd hc.1 (by norm_num)
  have hnone : logReturns log prices
      ((List.range 30).map (fun k : ℕ => ((30 : ℕ) : ℤ) - 30 + (k : ℤ))) = none :=
    logReturns_none log prices _ ⟨0, hmem, hread⟩
  rw [hnone]

/-- C3 witness: the code bug evaluated at a concrete failing input — 31 days
of constant price 1. -/
theorem spec2proof_C3_witness :
    (generateVolatility id id (fun _ => 0) (List.replicate 31 1) 31).get? 30 =
      some none :=
  spec2proof_C3 id id (fun _ => 0) (List.replicate 31 1) 31 (by norm_num)

/-- C6 counterexample: the claim fails on the code.  With cached metric
`"m"`, date axis `[0, 10]` and a query window whose end `3` lies before its
start `5`, `getSeries` does not reject the request: it succeeds, and even
returns the observation dated `10`, outside both bounds.  No `InvalidRange`
failure exists in the provider. -/
theorem spec2proof_C6_cex :
    seriesOk (getSeries (fun k => if k = "m" then some [10, 11] else none)
      [0, 10] "m" ⟨some 5, some 3⟩) = true ∧
    obsDatesOf (getSeries (fun k => if k = "m" then some [10, 11] else none)
      [0, 10] "m" ⟨some 5, some 3⟩) = [10] := by
  constructor <;> rfl

/-- C6 (amended): the provider performs no date-range validation at the
query boundary: a `getSeries` query succeeds exactly when the metric id is
cached, whatever the date range — in particular a range with end before
start (or any malformed bound, which the source turns into inert `NaN`
comparisons) is not rejected, and the only failure is the unknown-metric
error. -/
theorem spec2proof_C6 (cache : String → Option (List ℚ)) (dates : List ℚ)
    (id : String) (p : SeriesParams) :
    seriesOk (getSeries cache dates id p) = (cache id).isSome := by
  unfold getSeries seriesOk
  cases h : cache id <;> simp [h]

/-- C7: a metric id absent from the provider's cache (whose key set is
exactly `cachedKeys`) makes `getSeries` and `getLatest` fail with the
`Metric not found` error, while `getMetadata` never fails and returns the
fallback descriptor `{label: metricId, unit: '', notes: ''}`; for a cached
metric, `getLatest` returns the last cached value. -/
theorem spec2proof_C7 (cache : String → Option (List ℚ)) (dates : List ℚ)
    (p : SeriesParams) (id : String)
    (hdom : ∀ k, (cache k).isSome = true → k ∈ cachedKeys) :
    (id ∉ cachedKeys →
      getSeries cache dates id p = .error (String.append "Metric not found: " id) ∧
      getLatest cache id = .error (String.append "Metric not found: " id) ∧
      getMetadata id = ⟨id, "", ""⟩) ∧
    (∀ values, cache id = some values → ∀ hne : values ≠ [],
      getLatest cache id = .ok (some (values.getLast hne))) := by
  constructor
  · intro hn
    have hcache : cache id = none := by
      cases h : cache id with
      | none => rfl
      | some v => exact absurd (hdom id (by rw [h]; rfl)) hn
    refine ⟨?_, ?_, ?_⟩
    · unfold getSeries
      rw [hcache]
    · unfold getLatest
      rw [hcache]
    · unfold getMetadata
      rw [metadataMap_eq_none hn]
      rfl
  · intro values hv hne
    unfold getLatest
    rw [hv]
    dsimp only
    have : values.get? (values.length - 1) = some (values.getLast hne) := by
      rw [← List.getLast?_eq_get?, List.getLast?_eq_getLast values hne]
    rw [this]

/-- C7 witness: the theorem applied to a cache with exactly the provider's
key set — an unknown id falls back in `getMetadata`, and `getLatest` on
`btc_price` returns the last cached value. -/
theorem spec2proof_C7_witness :
    getMetadata "mystery_metric" = ⟨"mystery_metric", "", ""⟩ ∧
    getLatest (fun k => if k ∈ cachedKeys then some [3] else none) "btc_price" =
      .ok (some 3) := by
  have hdom : ∀ k, ((fun k => if k ∈ cachedKeys then some [(3 : ℚ)] else none) k).isSome = true →
      k ∈ cachedKeys := by
    intro k hk
    by_cases h : k ∈ cachedKeys
    · exact h
    · simp [h] at hk
  refine ⟨((spec2proof_C7 (fun k => if k ∈ cachedKeys then some [(3 : ℚ)] else none)
      [] ⟨none, none⟩ "mystery_metric" hdom).1 (by decide)).2.2, ?_⟩
  have h2 := (spec2proof_C7 (fun k => if k ∈ cachedKeys then some [(3 : ℚ)] else none)
      [] ⟨none, none⟩ "btc_price" hdom).2 [(3 : ℚ)] (by decide) (by decide)
  simpa using h2

/-- C10: when `startDate` is strictly later than every cached date,
`findIndex` returns `-1` and `getSeries` falls back to start index `0`,
returning the observations of the full cached range (not an empty series). -/
theorem spec2proof_C10 (cache : String → Option (List ℚ)) (dates values : List ℚ)
    (id : String) (s : ℚ) (hc : cache id = some values)
    (hlate : ∀ d ∈ dates, d < s) :
    ∃ ts, getSeries cache dates id ⟨some s, none⟩ = .ok ts ∧
      ts.observations.map Obs.date = dates := by
  have hfind : findIdxQ (fun d => decide (s ≤ d)) dates = none := by
    rw [findIdxQ_eq_none_iff]
    intro d hd
    simp only [decide_eq_true_eq]
    exact not_le.mpr (hlate d hd)
  unfold getSeries
  rw [hc]
  refine ⟨_, rfl, ?_⟩
  simp only [hfind, Option.getD_none, List.drop_zero, Nat.sub_zero]
  rw [take_pred_succ]
  exact buildObs_map_date values 0 dates 0

/-- C10 witness: a start date later than the whole axis returns the full
series. -/
theorem spec2proof_C10_witness :
    ∃ ts, getSeries (fun k => if k = "m" then some [1, 2, 3] else none)
        [0, 1, 2] "m" ⟨some 99, none⟩ = .ok ts ∧
      ts.observations.map Obs.date = [0, 1, 2] :=
  spec2proof_C10 (fun k => if k = "m" then some [1, 2, 3] else none)
    [0, 1, 2] [1, 2, 3] "m" 99 (by decide) (by decide)

lemma slice_eq_filter (s e : ℚ) (hse : s ≤ e) :
    ∀ dates : List ℚ, dates.Pairwise (· < ·) → (∃ d ∈ dates, s ≤ d) →
      (dates.drop ((findIdxQ (fun d => decide (s ≤ d)) dates).getD 0)).take
          (((findIdxQ (fun d => decide (e < d)) dates).getD (dates.length - 1)) + 1
            - (findIdxQ (fun d => decide (s ≤ d)) dates).getD 0)
        = dates.filter (fun d => decide (s ≤ d) && decide (d ≤ e))
          ++ (dates.filter (fun d => decide (e < d))).take 1 := by
  intro dates
  induction dates with
  | nil =>
    rintro _ ⟨d, hd, _⟩
    cases hd
  | cons d0 rest ih =>
    intro hsort hex
    obtain ⟨hlt, hsort'⟩ := List.pairwise_cons.mp hsort
    by_cases hs0 : s ≤ d0
    · have hfs : findIdxQ (fun d => decide (s ≤ d)) (d0 :: rest) = some 0 := by
        rw [findIdxQ_cons, if_pos (by simpa using hs0)]
      by_cases he0 : e < d0
      · have hfe : findIdxQ (fun d => decide (e < d)) (d0 :: rest) = some 0 := by
          rw [findIdxQ_cons, if_pos (by simpa using he0)]
        rw [hfs, hfe]
        have hW : (d0 :: rest).filter (fun d => decide (s ≤ d) && decide (d ≤ e)) = [] := by
          rw [List.filter_eq_nil_iff]
          intro x hx
          rcases List.mem_cons.mp hx with rfl | hx'
          · simp only [Bool.and_eq_true, decide_eq_true_eq, not_and]
            intro _
            exact not_le.mpr he0
          · simp only [Bool.and_eq_true, decide_eq_true_eq, not_and]
            intro _
            exact not_le.mpr (lt_trans he0 (hlt x hx'))
        have hA : (d0 :: rest).filter (fun d => decide (e < d))
            = d0 :: rest.filter (fun d => decide (e < d)) :=
          List.filter_cons_of_pos (by simpa using he0)
        rw [hW, hA]
        simp
      · have hd0e : d0 ≤ e := not_lt.mp he0
        have hfe : findIdxQ (fun d => decide (e < d)) (d0 :: rest)
            = (findIdxQ (fun d => decide (e < d)) rest).map (· + 1) := by
          rw [findIdxQ_cons, if_neg (by simpa using he0)]
        have hW : (d0 :: rest).filter (fun d => decide (s ≤ d) && decide (d ≤ e))
            = d0 :: rest.filter (fun d => decide (s ≤ d) && decide (d ≤ e)) :=
          List.filter_cons_of_pos (by simp [hs0, hd0e])
        have hA : (d0 :: rest).filter (fun d => decide (e < d))
            = rest.filter (fun d => decide (e < d)) :=
          List.filter_cons_of_neg (by simpa using he0)
        cases hj : findIdxQ (fun d => decide (e < d)) rest with
        | some j =>
          cases rest with
          | nil => simp [findIdxQ] at hj
          | cons d1 rest1 =>
            have hs1 : s ≤ d1 :=
              le_of_lt (lt_of_le_of_lt hs0 (hlt d1 (List.mem_cons_self _ _)))
            have hfs1 : findIdxQ (fun d => decide (s ≤ d)) (d1 :: rest1) = some 0 := by
              rw [findIdxQ_cons, if_pos (by simpa using hs1)]
            have hrec := ih hsort' ⟨d1, List.mem_cons_self _ _, hs1⟩
            rw [hfs1, hj] at hrec
            rw [hfs, hfe, hj]
            simp only [Option.map_some', Option.getD_some, List.drop_zero,
              Nat.sub_zero] at hrec ⊢
            rw [hW, hA, List.take_succ_cons, hrec]
            rfl
        | none =>
          have hall : ∀ x ∈ rest, ¬ e < x := by
            intro x hx
            have := (findIdxQ_eq_none_iff _ rest).mp hj x hx
            simpa using this
          rw [hfs, hfe, hj]
          have hA2 : rest.filter (fun d => decide (e < d)) = [] := by
            rw [List.filter_eq_nil_iff]
            intro x hx
            simpa using hall x hx
          have hW2 : rest.filter (fun d => decide (s ≤ d) && decide (d ≤ e)) = rest := by
            rw [List.filter_eq_self]
            intro x hx
            have h1 : s ≤ x := le_of_lt (lt_of_le_of_lt hs0 (hlt x hx))
            have h2 : x ≤ e := not_lt.mp (hall x hx)
            simp [h1, h2]
          rw [hW, hA, hA2, hW2]
          simp only [Option.map_none', Option.getD_none, Option.getD_some,
            List.drop_zero, Nat.sub_zero, List.length_cons]
          have harith : rest.length + 1 - 1 + 1 = rest.length + 1 := by omega
          rw [harith, List.take_succ_cons, List.take_length]
          simp
    · have hd0s : d0 < s := not_le.mp hs0
      have hne0 : ¬ e < d0 := not_lt.mpr (le_trans (le_of_lt hd0s) hse)
      have hfs : findIdxQ (fun d => decide (s ≤ d)) (d0 :: rest)
          = (findIdxQ (fun d => decide (s ≤ d)) rest).map (· + 1) := by
        rw [findIdxQ_cons, if_neg (by simpa using hs0)]
      have hfe : findIdxQ (fun d => decide (e < d)) (d0 :: rest)
          = (findIdxQ (fun d => decide (e < d)) rest).map (· + 1) := by
        rw [findIdxQ_cons, if_neg (by simpa using hne0)]
      obtain ⟨d, hd, hds⟩ := hex
      have hd' : d ∈ rest := by
        rcases List.mem_cons.mp hd with rfl | h
        · exact absurd hds hs0
        · exact h
      have hrest_ne : rest ≠ [] := by
        intro hc
        rw [hc] at hd'
        cases hd'
      have hrec := ih hsort' ⟨d, hd', hds⟩
      obtain ⟨i0, hi0⟩ : ∃ i0, findIdxQ (fun d => decide (s ≤ d)) rest = some i0 := by
        cases hcase : findIdxQ (fun d => decide (s ≤ d)) rest with
        | none =>
          exact absurd ((findIdxQ_eq_none_iff _ rest).mp hcase d hd') (by simpa using hds)
        | some i0 => exact ⟨i0, rfl⟩
      have hW : (d0 :: rest).filter (fun d => decide (s ≤ d) && decide (d ≤ e))
          = rest.filter (fun d => decide (s ≤ d) && decide (d ≤ e)) :=
        List.filter_cons_of_neg (by simp [hs0])
      have hA : (d0 :: rest).filter (fun d => decide (e < d))
          = rest.filter (fun d => decide (e < d)) :=
        List.filter_cons_of_neg (by simpa using hne0)
      rw [hfs, hfe, hi0, hW, hA]
      cases hj : findIdxQ (fun d => decide (e < d)) rest with
      | some j =>
        rw [hi0, hj] at hrec
        simp only [Option.map_some', Option.getD_some] at hrec ⊢
        rw [List.drop_succ_cons]
        have harith : j + 1 + 1 - (i0 + 1) = j + 1 - i0 := by omega
        rw [harith]
        exact hrec
      | none =>
        rw [hi0, hj] at hrec
        simp only [Option.map_none', Option.map_some', Option.getD_none, Option.getD_some,
          List.length_cons] at hrec ⊢
        rw [List.drop_succ_cons]
        have hrlen : 0 < rest.length := List.length_pos.mpr hrest_ne
        have harith2 : rest.length + 1 - 1 + 1 - (i0 + 1) = rest.length - 1 + 1 - i0 := by
          omega
        rw [harith2]
        exact hrec

/-- C2 counterexample: the claim fails on the code.  With cached dates
`[0, 1, 2, 3]` and the explicit window `[0, 1]`, `getSeries` returns the
observations dated `[0, 1, 2]` — the end of the slice is the first cached
date strictly greater than `endDate`, so the observation dated `2`, outside
the inclusive window (`¬ 2 ≤ 1`), is included. -/
theorem spec2proof_C2_cex :
    obsDatesOf (getSeries (fun k => if k = "m" then some [10, 11, 12, 13] else none)
      [0, 1, 2, 3] "m" ⟨some 0, some 1⟩) = [0, 1, 2] ∧ ¬ ((2 : ℚ) ≤ 1) := by
  constructor
  · rfl
  · norm_num

/-- C2 (amended): for a cached metric queried with explicit bounds
`startDate ≤ endDate`, on the strictly-increasing cached date axis (with
some cached date `≥ startDate`), `getSeries` returns, in original ascending
order, exactly the observations of the inclusive window — first cached date
`≥ startDate` through last cached date `≤ endDate` — *plus* the first cached
date strictly greater than `endDate` when one exists (the source slices
through the first index with date `> endDate` inclusively). -/
theorem spec2proof_C2 (cache : String → Option (List ℚ)) (dates values : List ℚ)
    (id : String) (s e : ℚ) (hc : cache id = some values)
    (hsort : dates.Pairwise (· < ·)) (hse : s ≤ e) (hex : ∃ d ∈ dates, s ≤ d) :
    ∃ ts, getSeries cache dates id ⟨some s, some e⟩ = .ok ts ∧
      ts.observations.map Obs.date
        = dates.filter (fun d => decide (s ≤ d) && decide (d ≤ e))
          ++ (dates.filter (fun d => decide (e < d))).take 1 := by
  unfold getSeries
  rw [hc]
  refine ⟨_, rfl, ?_⟩
  rw [buildObs_map_date]
  exact slice_eq_filter s e hse dates hsort hex

/-- C2 witness: the amended theorem at the counterexample's input. -/
theorem spec2proof_C2_witness :
    ∃ ts, getSeries (fun k => if k = "m" then some [10, 11, 12, 13] else none)
        [0, 1, 2, 3] "m" ⟨some 0, some 1⟩ = .ok ts ∧
      ts.observations.map Obs.date
        = [0, 1, 2, 3].filter (fun d => decide ((0 : ℚ) ≤ d) && decide (d ≤ 1))
          ++ ([0, 1, 2, 3].filter (fun d => decide ((1 : ℚ) < d))).take 1 :=
  spec2proof_C2 (fun k => if k = "m" then some [10, 11, 12, 13] else none)
    [0, 1, 2, 3] [10, 11, 12, 13] "m" 0 1 (by decide) (by decide) (by norm_num)
    (by decide)

lemma ScanInv.emit {len : ℕ} {st : ScanState} (inv : ScanInv len st) {i : ℕ} {id : String}
    (hi : i < len) (hid : id ∈ scanIds)
    (h15 : st.lastEventIndex + 15 ≤ (i : ℤ))
    (hf : id = "forced_deleveraging" → st.lastEventIndex + 20 ≤ (i : ℤ))
    (hrg : id = "regulatory_shock" → st.lastEventIndex + 30 ≤ (i : ℤ)) :
    ScanInv len ⟨st.events ++ [(i, id)], (i : ℤ)⟩ := by
  obtain ⟨hpw, hch, hmem, hlast⟩ := inv
  refine ⟨?_, ?_, ?_, ?_⟩
  · rw [List.pairwise_append]
    refine ⟨hpw, List.pairwise_singleton _ _, ?_⟩
    intro a ha b hb
    rw [List.mem_singleton] at hb
    subst hb
    have h1 := (hmem a ha).1
    unfold gapOK
    omega
  · rw [List.chain'_append]
    refine ⟨hch, List.chain'_singleton _, ?_⟩
    intro x hx y hy
    simp only [List.head?_cons, Option.mem_def, Option.some.injEq] at hy
    subst hy
    have hx' : (x.1 : ℤ) = st.lastEventIndex := hlast x hx
    unfold specialOK
    constructor
    · intro hfd
      have := hf hfd
      omega
    · intro hrs
      have := hrg hrs
      omega
  · intro ev hev
    rcases List.mem_append.mp hev with h | h
    · obtain ⟨ha, hb, hc⟩ := hmem ev h
      refine ⟨?_, hb, hc⟩
      show (ev.1 : ℤ) ≤ (i : ℤ)
      omega
    · rw [List.mem_singleton] at h
      subst h
      exact ⟨le_refl _, hi, hid⟩
  · intro ev hev
    rw [List.getLast?_concat] at hev
    simp only [Option.mem_def, Option.some.injEq] at hev
    subst hev
    rfl

lemma scanStep_inv {P V L F S R : ℕ → ℚ} {len : ℕ} {st : ScanState} {i : ℕ}
    (inv : ScanInv len st) (hi : i < len) : ScanInv len (scanStep P V L F S R st i) := by
  unfold scanStep
  split_ifs with hskip h1 h2 h3 h4 h5 h6 h7 h8
  · exact inv
  · push_neg at hskip
    apply ScanInv.emit inv hi
    · decide
    · omega
    · intro h
      exact absurd h (by decide)
    · intro h
      exact absurd h (by decide)
  · push_neg at hskip
    apply ScanInv.emit inv hi
    · decide
    · omega
    · intro h
      exact absurd h (by decide)
    · intro h
      exact absurd h (by decide)
  · push_neg at hskip
    apply ScanInv.emit inv hi
    · decide
    · omega
    · intro _
      have h20 := h3.2.2
      omega
    · intro h
      exact absurd h (by decide)
  · push_neg at hskip
    apply ScanInv.emit inv hi
    · decide
    · omega
    · intro h
      exact absurd h (by decide)
    · intro h
      exact absurd h (by decide)
  · push_neg at hskip
    apply ScanInv.emit inv hi
    · decide
    · omega
    · intro h
      exact absurd h (by decide)
    · intro h
      exact absurd h (by decide)
  · push_neg at hskip
    apply ScanInv.emit inv hi
    · decide
    · omega
    · intro h
      exact absurd h (by decide)
    · intro _
      have h30 := h6.2.1
      omega
  · push_neg at hskip
    apply ScanInv.emit inv hi
    · decide
    · omega
    · intro h
      exact absurd h (by decide)
    · intro h
      exact absurd h (by decide)
  · push_neg at hskip
    apply ScanInv.emit inv hi
    · decide
    · omega
    · intro h
      exact absurd h (by decide)
    · intro h
      exact absurd h (by decide)
  · exact inv

lemma scanEvents_inv (P V L F S R : ℕ → ℚ) (len : ℕ) :
    ScanInv len (scanEvents P V L F S R len) := by
  have key : ∀ n, n ≤ len →
      ScanInv len ((List.range n).foldl (scanStep P V L F S R) ⟨[], -20⟩) := by
    intro n
    induction n with
    | zero =>
      intro _
      exact ⟨List.Pairwise.nil, List.chain'_nil, by simp, by simp⟩
    | succ m ih =>
      intro hm
      rw [List.range_succ, List.foldl_append, List.foldl_cons, List.foldl_nil]
      exact scanStep_inv (ih (by omega)) (by omega)
  exact key len le_rfl

/-- C4: in every run of the condition scan (before backfill), the emitted
events are pairwise at least 15 day indices apart — whatever their
categories — and each `forced_deleveraging` emission lies at least 20 days,
each `regulatory_shock` at least 30 days, after the previously emitted
event. -/
theorem spec2proof_C4 (P V L F S R : ℕ → ℚ) (len : ℕ) :
    (scanEvents P V L F S R len).events.Pairwise (fun a b => a.1 + 15 ≤ b.1) ∧
    (scanEvents P V L F S R len).events.Chain' (fun a b =>
      (b.2 = "forced_deleveraging" → a.1 + 20 ≤ b.1) ∧
      (b.2 = "regulatory_shock" → a.1 + 30 ≤ b.1)) := by
  obtain ⟨hp, hc, _, _⟩ := scanEvents_inv P V L F S R len
  exact ⟨hp, hc⟩

lemma createEvent_defs_isSome (dfn : EventDefinition) (hd : dfn ∈ EVENT_DEFINITIONS)
    (d : ℚ) : ∃ ev, createEvent dfn.event_id d = some ev := by
  fin_cases hd <;> exact ⟨_, rfl⟩

lemma createEvent_scanIds_isSome (id : String) (hid : id ∈ scanIds) (d : ℚ) :
    ∃ ev, createEvent id d = some ev := by
  fin_cases hid <;> exact ⟨_, rfl⟩

lemma buildEvents_ok (dates : List ℚ) :
    ∀ evs : List (ℕ × String), (∀ e ∈ evs, e.1 < dates.length ∧ e.2 ∈ scanIds) →
      ∃ l : List Event, buildEvents dates evs = .ok l ∧ l.length = evs.length := by
  intro evs
  induction evs with
  | nil =>
    intro _
    exact ⟨[], rfl, rfl⟩
  | cons e rest ih =>
    intro h
    obtain ⟨hlt, hid⟩ := h e (List.mem_cons_self _ _)
    obtain ⟨l, hl, hlen⟩ := ih (fun x hx => h x (List.mem_cons_of_mem _ hx))
    have hd : dates.get? e.1 = some (dates.get ⟨e.1, hlt⟩) := List.get?_eq_get hlt
    obtain ⟨ev, hev⟩ := createEvent_scanIds_isSome e.2 hid (dates.get ⟨e.1, hlt⟩)
    refine ⟨ev :: l, ?_, by simp [hlen]⟩
    unfold buildEvents
    simp only [hd, hev, hl]

lemma backfillRead_seven (dates : List ℚ) (idx : ℕ) : backfillRead dates 7 idx = none := by
  unfold backfillRead backfillIndex
  have hcast : ((dates.length : ℚ)) / ((8 : ℚ) - ((7 : ℕ) : ℚ)) * ((idx : ℚ) + 1)
      = ((dates.length * (idx + 1) : ℕ) : ℚ) := by
    push_cast
    ring
  rw [hcast, Int.floor_natCast]
  rw [if_pos (Int.natCast_nonneg _)]
  rw [Int.toNat_natCast, List.get?_eq_none]
  exact Nat.le_mul_of_pos_right _ (Nat.succ_pos idx)

lemma backfillLoop_crash (dates : List ℚ) :
    ∀ defs : List EventDefinition, defs ⊆ EVENT_DEFINITIONS → defs ≠ [] →
      ∀ (events : List Event) (idx : ℕ), events.length + defs.length = 8 →
      backfillLoop dates defs events idx =
        .error "TypeError: cannot read toISOString of undefined" := by
  intro defs
  induction defs with
  | nil =>
    intro _ hne
    exact absurd rfl hne
  | cons dfn rest ih =>
    intro hsub _ events idx hlen
    cases rest with
    | nil =>
      have h7 : events.length = 7 := by
        simp only [List.length_cons, List.length_nil] at hlen
        omega
      unfold backfillLoop
      rw [h7, backfillRead_seven]
    | cons d2 rest2 =>
      unfold backfillLoop
      cases hg : backfillRead dates events.length idx with
      | none => rfl
      | some d =>
        obtain ⟨ev, hev⟩ := createEvent_defs_isSome dfn (hsub (List.mem_cons_self _ _)) d
        simp only [hev]
        apply ih (fun x hx => hsub (List.mem_cons_of_mem _ hx)) (by simp)
          (events ++ [ev]) (idx + 1)
        simp only [List.length_append, List.length_cons, List.length_nil] at hlen ⊢
        omega

lemma length_filter_split (p : EventDefinition → Bool) :
    ∀ l : List EventDefinition,
      (l.filter p).length + (l.filter (fun x => ! p x)).length = l.length := by
  intro l
  induction l with
  | nil => rfl
  | cons a rest ih =>
    by_cases h : p a = true
    · rw [List.filter_cons_of_pos h, List.filter_cons_of_neg (by simp [h])]
      simp only [List.length_cons]
      omega
    · rw [List.filter_cons_of_neg h, List.filter_cons_of_pos
        (by simp [Bool.eq_false_iff.mpr h])]
      simp only [List.length_cons]
      omega

lemma used_defs_le (evs : List Event) :
    (EVENT_DEFINITIONS.filter
      (fun dfn => evs.any (fun e => e.event_id == dfn.event_id))).length ≤ evs.length := by
  have hnodup : ((EVENT_DEFINITIONS.filter
      (fun dfn => evs.any (fun e => e.event_id == dfn.event_id))).map
        EventDefinition.event_id).Nodup :=
    List.Nodup.sublist (List.Sublist.map _ (List.filter_sublist _)) (by decide)
  have hsub : ((EVENT_DEFINITIONS.filter
      (fun dfn => evs.any (fun e => e.event_id == dfn.event_id))).map
        EventDefinition.event_id) ⊆ evs.map Event.event_id := by
    intro x hx
    obtain ⟨dfn, hdfn, hxeq⟩ := List.mem_map.mp hx
    obtain ⟨e, he, heq⟩ := List.any_eq_true.mp (List.mem_filter.mp hdfn).2
    have heq' : e.event_id = dfn.event_id := by simpa using heq
    exact List.mem_map.mpr ⟨e, he, by rw [heq', hxeq]⟩
  have hle := (hnodup.subperm hsub).length_le
  simpa using hle

lemma missing_le (evs : List Event) :
    8 - evs.length ≤ (EVENT_DEFINITIONS.filter
      (fun dfn => ! evs.any (fun e => e.event_id == dfn.event_id))).length := by
  have hsplit := length_filter_split
    (fun dfn => evs.any (fun e => e.event_id == dfn.event_id)) EVENT_DEFINITIONS
  have hused := used_defs_le evs
  have h10 : EVENT_DEFINITIONS.length = 10 := rfl
  omega

/-- C1: the claim fails on the code.  Whenever the condition scan produces
fewer than eight events, the backfill loop crashes instead of completing:
`8 - events.length` is re-read after every push, so at the final backfill
step the divisor is `1` and the computed date index is
`dailyDates.length * (idx + 1) ≥ dailyDates.length` — past the end of the
date axis.  The source reads `undefined` there and throws inside
`createEvent` (`date.toISOString()`); `generateSyntheticEvents` therefore
never returns the promised list of at least eight events. -/
theorem spec2proof_C1 (dates : List ℚ) (P V L F S R : ℕ → ℚ)
    (hfew : (scanEvents P V L F S R dates.length).events.length < 8) :
    generateSyntheticEvents dates P V L F S R =
      .error "TypeError: cannot read toISOString of undefined" := by
  obtain ⟨_, _, hmem, _⟩ := scanEvents_inv P V L F S R dates.length
  obtain ⟨l, hl, hlen⟩ := buildEvents_ok dates _
    (fun e he => ⟨(hmem e he).2.1, (hmem e he).2.2⟩)
  unfold generateSyntheticEvents
  simp only [hl]
  have hfewl : l.length < 8 := by omega
  rw [if_pos hfewl]
  have hmiss := missing_le l
  have htake_len : ((EVENT_DEFINITIONS.filter
      (fun dfn => ! l.any (fun e => e.event_id == dfn.event_id))).take
        (8 - l.length)).length = 8 - l.length := by
    rw [List.length_take]
    omega
  have htake_ne : (EVENT_DEFINITIONS.filter
      (fun dfn => ! l.any (fun e => e.event_id == dfn.event_id))).take
        (8 - l.length) ≠ [] := by
    intro hc
    rw [hc] at htake_len
    simp only [List.length_nil] at htake_len
    omega
  have htake_sub : (EVENT_DEFINITIONS.filter
      (fun dfn => ! l.any (fun e => e.event_id == dfn.event_id))).take
        (8 - l.length) ⊆ EVENT_DEFINITIONS :=
    fun x hx => (List.mem_filter.mp (List.take_subset _ _ hx)).1
  rw [backfillLoop_crash dates _ htake_sub htake_ne l 0 (by omega)]

lemma scanStep_inert (st : ScanState) (i : ℕ) :
    scanStep (fun _ => 1) (fun _ => 0) (fun _ => 0) (fun _ => 0) (fun _ => 0)
      (fun _ => 1) st i = st := by
  have hETF : recentETFFlowsAt (fun _ => 0) i = 0 := by
    simp [recentETFFlowsAt]
  have hPC : priceChangeAt (fun _ => 1) i = 0 := by
    norm_num [priceChangeAt]
  have hSS : stableSupplyChangeAt (fun _ => 0) i = 0 := by
    unfold stableSupplyChangeAt
    split_ifs <;> norm_num
  unfold scanStep
  by_cases hskip : i < 30 ∨ (i : ℤ) - st.lastEventIndex < 15
  · rw [if_pos hskip]
  · rw [if_neg hskip,
      if_neg (by rintro ⟨h, _⟩; rw [hETF] at h; norm_num at h),
      if_neg (by rintro ⟨h, _, _⟩; norm_num at h),
      if_neg (by rintro ⟨h, _, _⟩; rw [hPC] at h; norm_num at h),
      if_neg (by rintro ⟨h, _⟩; rw [hSS] at h; norm_num at h),
      if_neg (by rintro ⟨h, _, _⟩; rw [hPC] at h; norm_num at h),
      if_neg (by rintro ⟨h, _, _⟩; norm_num at h),
      if_neg (by rintro ⟨h, _⟩; rw [hPC] at h; norm_num at h),
      if_neg (by rintro ⟨h, _, _⟩; rw [hPC] at h; norm_num at h)]

lemma scanEvents_inert (len : ℕ) :
    scanEvents (fun _ => 1) (fun _ => 0) (fun _ => 0) (fun _ => 0) (fun _ => 0)
      (fun _ => 1) len = ⟨[], -20⟩ := by
  unfold scanEvents
  induction len with
  | zero => rfl
  | succ n ih =>
    rw [List.range_succ, List.foldl_append, ih, List.foldl_cons, List.foldl_nil,
      scanStep_inert]

/-- C1 witness: the crash evaluated at a concrete input — a 40-day axis with
constant series (price 1, everything else 0, random draw 1), where the scan
emits no event at all. -/
theorem spec2proof_C1_witness :
    generateSyntheticEvents (List.replicate 40 0)
      (fun _ => 1) (fun _ => 0) (fun _ => 0) (fun _ => 0) (fun _ => 0) (fun _ => 1) =
      .error "TypeError: cannot read toISOString of undefined" :=
  spec2proof_C1 (List.replicate 40 0)
    (fun _ => 1) (fun _ => 0) (fun _ => 0) (fun _ => 0) (fun _ => 0) (fun _ => 1)
    (by rw [scanEvents_inert]; norm_num)

lemma generateRegimesAux_succ (endTime : ℚ) (rand : ℕ → ℚ) (fuel : ℕ) (current : ℚ)
    (k : ℕ) (acc : List MarketRegime) :
    generateRegimesAux endTime rand (fuel + 1) current k acc =
      if current < endTime then
        generateRegimesAux endTime rand fuel
          (current + getRegimeDuration
            (selectRegimeType (acc.head?.map MarketRegime.type) (rand k)) (rand (k + 1)))
          (k + 3)
          (⟨current,
            if endTime < current + getRegimeDuration
                (selectRegimeType (acc.head?.map MarketRegime.type) (rand k)) (rand (k + 1))
            then endTime
            else current + getRegimeDuration
              (selectRegimeType (acc.head?.map MarketRegime.type) (rand k)) (rand (k + 1)),
            selectRegimeType (acc.head?.map MarketRegime.type) (rand k),
            getRegimeVolatility
              (selectRegimeType (acc.head?.map MarketRegime.type) (rand k)) (rand (k + 2))⟩
            :: acc)
      else acc.reverse := rfl

lemma generateRegimesAux_stop (endTime : ℚ) (rand : ℕ → ℚ) (fuel : ℕ) (current : ℚ)
    (k : ℕ) (acc : List MarketRegime) (h : ¬ current < endTime) :
    generateRegimesAux endTime rand fuel current k acc = acc.reverse := by
  cases fuel with
  | zero => rfl
  | succ f => rw [generateRegimesAux_succ, if_neg h]

lemma getRegimeDuration_ge (t : RegimeType) (r : ℚ) (hr : 0 ≤ r) :
    daysToMs 15 ≤ getRegimeDuration t r := by
  cases t <;> · simp only [getRegimeDuration, daysToMs]; nlinarith

lemma getLast?_cons_of_ne {α : Type} (a : α) {l : List α} (h : l ≠ []) :
    (a :: l).getLast? = l.getLast? := by
  cases l with
  | nil => exact absurd rfl h
  | cons b t => exact List.getLast?_cons_cons

lemma generateRegimesAux_spec (endTime : ℚ) (rand : ℕ → ℚ) (hr : ∀ n, 0 ≤ rand n) :
    ∀ (fuel : ℕ) (current : ℚ) (k : ℕ) (acc : List MarketRegime),
      current < endTime →
      endTime ≤ current + fuel * daysToMs 15 →
      ∃ new : List MarketRegime,
        generateRegimesAux endTime rand fuel current k acc = acc.reverse ++ new ∧
        new ≠ [] ∧
        new.head?.map MarketRegime.start = some current ∧
        new.getLast?.map MarketRegime.stop = some endTime ∧
        new.Chain' (fun a b => a.stop = b.start) ∧
        (∀ reg ∈ new, reg.start < reg.stop ∧ reg.stop ≤ endTime) := by
  intro fuel
  induction fuel with
  | zero =>
    intro current k acc hlt hfuel
    exfalso
    simp only [Nat.cast_zero, zero_mul, add_zero] at hfuel
    linarith
  | succ f ih =>
    intro current k acc hlt hfuel
    rw [generateRegimesAux_succ, if_pos hlt]
    set ty := selectRegimeType (acc.head?.map MarketRegime.type) (rand k) with hty
    set dur := getRegimeDuration ty (rand (k + 1)) with hdurdef
    set vol := getRegimeVolatility ty (rand (k + 2)) with hvoldef
    have hdge : daysToMs 15 ≤ dur := getRegimeDuration_ge _ _ (hr (k + 1))
    have hc : (0 : ℚ) < daysToMs 15 := by norm_num [daysToMs]
    by_cases hnext : current + dur < endTime
    · rw [if_neg (by linarith)]
      have hfuel' : endTime ≤ (current + dur) + f * daysToMs 15 := by
        have hexp : ((f + 1 : ℕ) : ℚ) * daysToMs 15 = f * daysToMs 15 + daysToMs 15 := by
          push_cast
          ring
        rw [hexp] at hfuel
        linarith
      obtain ⟨new, heq, hne, hhead, hlast, hchain, hbounds⟩ :=
        ih (current + dur) (k + 3) (⟨current, current + dur, ty, vol⟩ :: acc) hnext hfuel'
      refine ⟨⟨current, current + dur, ty, vol⟩ :: new, ?_, by simp, by simp, ?_, ?_, ?_⟩
      · rw [heq, List.reverse_cons, List.append_assoc]
        rfl
      · rw [getLast?_cons_of_ne _ hne]
        exact hlast
      · rw [List.chain'_cons']
        refine ⟨?_, hchain⟩
        intro y hy
        cases hnew : new.head? with
        | none =>
          rw [hnew] at hy
          cases hy
        | some y0 =>
          rw [hnew] at hy hhead
          simp only [Option.mem_def, Option.some.injEq] at hy
          simp only [Option.map_some', Option.some.injEq] at hhead
          subst hy
          exact hhead.symm
      · intro reg hreg
        rcases List.mem_cons.mp hreg with h | h
        · subst h
          refine ⟨?_, ?_⟩
          · show current < current + dur
            linarith
          · show current + dur ≤ endTime
            linarith
        · exact hbounds reg h
    · have hstop : (if endTime < current + dur then endTime else current + dur)
          = endTime := by
        split_ifs with h
        · rfl
        · push_neg at h hnext
          linarith
      rw [hstop, generateRegimesAux_stop _ _ _ _ _ _ hnext, List.reverse_cons]
      refine ⟨[⟨current, endTime, ty, vol⟩], rfl, by simp, by simp, by simp, ?_, ?_⟩
      · exact List.chain'_singleton _
      · intro reg hreg
        rw [List.mem_singleton] at hreg
        subst hreg
        exact ⟨hlt, le_refl _⟩

lemma regimes_cover (t : ℚ) :
    ∀ l : List MarketRegime, l.Chain' (fun a b => a.stop = b.start) →
      ∀ a, l.head? = some a → a.start ≤ t →
      ∀ b, l.getLast? = some b → t ≤ b.stop →
      ∃ reg ∈ l, reg.start ≤ t ∧ t ≤ reg.stop := by
  intro l
  induction l with
  | nil =>
    intro _ a ha
    cases ha
  | cons r rest ih =>
    intro hchain a ha hat b hb htb
    simp only [List.head?_cons, Option.some.injEq] at ha
    subst ha
    by_cases hstop : t ≤ r.stop
    · exact ⟨r, List.mem_cons_self _ _, hat, hstop⟩
    · push_neg at hstop
      cases rest with
      | nil =>
        simp only [List.getLast?_singleton, Option.some.injEq] at hb
        subst hb
        exact absurd htb (not_le.mpr hstop)
      | cons r2 rest2 =>
        obtain ⟨hr2, hchain'⟩ := List.chain'_cons.mp hchain
        have hb' : (r2 :: rest2).getLast? = some b := by
          rw [← hb]
          exact (List.getLast?_cons_cons).symm
        obtain ⟨reg, hmem, hcov⟩ := ih hchain' r2 rfl (by rw [← hr2]; exact le_of_lt hstop)
          b hb' htb
        exact ⟨reg, List.mem_cons_of_mem _ hmem, hcov⟩

lemma regimesFuel_spec (startTime endTime : ℚ) (h : startTime < endTime) :
    endTime ≤ startTime + (regimesFuel startTime endTime : ℚ) * daysToMs 15 := by
  unfold regimesFuel
  have hc : (0 : ℚ) < daysToMs 15 := by norm_num [daysToMs]
  have h1 : (endTime - startTime) / daysToMs 15
      ≤ (⌈(endTime - startTime) / daysToMs 15⌉ : ℚ) := Int.le_ceil _
  have h2 : (0 : ℤ) ≤ ⌈(endTime - startTime) / daysToMs 15⌉ :=
    Int.ceil_nonneg (div_nonneg (by linarith) (le_of_lt hc))
  have h3 : (endTime - startTime) ≤ (⌈(endTime - startTime) / daysToMs 15⌉ : ℚ) * daysToMs 15 := by
    have := mul_le_mul_of_nonneg_right h1 (le_of_lt hc)
    rwa [div_mul_cancel₀ _ (ne_of_gt hc)] at this
  have h4 : ((⌈(endTime - startTime) / daysToMs 15⌉.toNat + 1 : ℕ) : ℚ)
      = (⌈(endTime - startTime) / daysToMs 15⌉ : ℚ) + 1 := by
    rw [Nat.cast_add, Nat.cast_one]
    congr 1
    exact_mod_cast Int.toNat_of_nonneg h2
  rw [h4]
  nlinarith

/-- C5 (amended): for every `start < end` and every uniform random stream,
the regimes of `generateRegimes` are ordered and contiguous (each regime
starts where the previous one stops), the first starts at `start`, the last
stops at `end`, every regime is non-degenerate, and every instant of
`[start, end]` is contained in at least one regime, so `getRegimeAtDate`
returns (without ever needing its fallback) the first regime whose closed
interval contains the instant.  Exactly-one containment fails at interior
boundaries: a shared boundary instant lies in both adjacent closed
intervals (see the counterexample). -/
theorem spec2proof_C5 (startTime endTime : ℚ) (rand : ℕ → ℚ)
    (hlt : startTime < endTime) (hr : ∀ n, 0 ≤ rand n ∧ rand n < 1) :
    (generateRegimes startTime endTime rand ≠ [] ∧
     (generateRegimes startTime endTime rand).head?.map MarketRegime.start = some startTime ∧
     (generateRegimes startTime endTime rand).getLast?.map MarketRegime.stop = some endTime ∧
     (generateRegimes startTime endTime rand).Chain' (fun a b => a.stop = b.start) ∧
     (∀ reg ∈ generateRegimes startTime endTime rand, reg.start < reg.stop)) ∧
    (∀ t, startTime ≤ t → t ≤ endTime →
      ∃ reg, getRegimeAtDate (generateRegimes startTime endTime rand) t = some reg ∧
        reg.start ≤ t ∧ t ≤ reg.stop) := by
  obtain ⟨new, heq, hne, hhead, hlast, hchain, hbounds⟩ :=
    generateRegimesAux_spec endTime rand (fun n => (hr n).1)
      (regimesFuel startTime endTime) startTime 0 [] hlt
      (regimesFuel_spec startTime endTime hlt)
  have hgen : generateRegimes startTime endTime rand = new := by
    unfold generateRegimes
    rw [heq]
    rfl
  rw [hgen]
  obtain ⟨a, hha⟩ : ∃ a, new.head? = some a := Option.isSome_iff_exists.mp (by
    rw [Option.isSome_iff_ne_none]
    intro hc
    rw [hc] at hhead
    cases hhead)
  obtain ⟨b, hhb⟩ : ∃ b, new.getLast? = some b := Option.isSome_iff_exists.mp (by
    rw [Option.isSome_iff_ne_none]
    intro hc
    rw [hc] at hlast
    cases hlast)
  have hastart : a.start = startTime := by
    rw [hha] at hhead
    simpa using hhead
  have hbstop : b.stop = endTime := by
    rw [hhb] at hlast
    simpa using hlast
  refine ⟨⟨hne, hhead, hlast, hchain, fun reg hreg => (hbounds reg hreg).1⟩, ?_⟩
  intro t hts hte
  obtain ⟨reg, hmem, hcov⟩ := regimes_cover t new hchain a hha (by rw [hastart]; exact hts)
    b hhb (by rw [hbstop]; exact hte)
  have hfind : ∃ r, new.find?
      (fun r => decide (r.start ≤ t) && decide (t ≤ r.stop)) = some r :=
    Option.isSome_iff_exists.mp (List.find?_isSome.mpr
      ⟨reg, hmem, by simp [hcov.1, hcov.2]⟩)
  obtain ⟨r, hr'⟩ := hfind
  have hpr := List.find?_some hr'
  simp only [Bool.and_eq_true, decide_eq_true_eq] at hpr
  refine ⟨r, ?_, hpr.1, hpr.2⟩
  unfold getRegimeAtDate
  rw [hr']

lemma regimes_cex_eval :
    generateRegimes 0 2592000000 (fun _ => 0) =
      [⟨0, 1728000000, .bear, 60⟩, ⟨1728000000, 2592000000, .bull, 40⟩] := by
  have hfuel : regimesFuel 0 2592000000 = 3 := by
    have hq : ((2592000000 : ℚ) - 0) / daysToMs 15 = 2 := by
      norm_num [daysToMs]
    unfold regimesFuel
    rw [hq]
    decide
  unfold generateRegimes
  rw [hfuel]
  rw [show (3 : ℕ) = 2 + 1 from rfl, generateRegimesAux_succ,
    if_pos (by norm_num : (0 : ℚ) < 2592000000)]
  have hty1 : selectRegimeType ((([] : List MarketRegime).head?).map MarketRegime.type)
      ((fun _ : ℕ => (0 : ℚ)) 0) = .bear := by
    simp only [List.head?_nil, Option.map_none', selectRegimeType]
    norm_num
  rw [hty1]
  have hd1 : getRegimeDuration .bear ((fun _ : ℕ => (0 : ℚ)) 1) = 1728000000 := by
    norm_num [getRegimeDuration, daysToMs]
  rw [hd1]
  have hv1 : getRegimeVolatility .bear ((fun _ : ℕ => (0 : ℚ)) 2) = 60 := by
    norm_num [getRegimeVolatility]
  rw [hv1, if_neg (by norm_num : ¬ (2592000000 : ℚ) < 0 + 1728000000)]
  rw [show (2 : ℕ) = 1 + 1 from rfl, generateRegimesAux_succ,
    if_pos (by norm_num : (0 : ℚ) + 1728000000 < 2592000000)]
  have hty2 : selectRegimeType ((([⟨0, 0 + 1728000000, RegimeType.bear, 60⟩] :
      List MarketRegime).head?).map MarketRegime.type) ((fun _ : ℕ => (0 : ℚ)) (0 + 3))
      = .bull := by
    simp only [List.head?_cons, Option.map_some', selectRegimeType]
    norm_num
  rw [hty2]
  have hd2 : getRegimeDuration .bull ((fun _ : ℕ => (0 : ℚ)) (0 + 3 + 1)) = 2592000000 := by
    norm_num [getRegimeDuration, daysToMs]
  rw [hd2]
  have hv2 : getRegimeVolatility .bull ((fun _ : ℕ => (0 : ℚ)) (0 + 3 + 2)) = 40 := by
    norm_num [getRegimeVolatility]
  rw [hv2, if_pos (by norm_num : (2592000000 : ℚ) < 0 + 1728000000 + 2592000000)]
  rw [generateRegimesAux_stop _ _ _ _ _ _ (by norm_num)]
  norm_num

/-- C5 counterexample: the claim fails on the code.  With `start = 0`,
`end = 2592000000` (30 days in milliseconds) and the all-zero random
stream, `generateRegimes` produces two contiguous regimes meeting at the
instant `1728000000`; that instant lies inside the requested range and
inside the closed intervals of *both* regimes, so it is not the case that
exactly one regime applies under the inclusive-interval containment used
by `getRegimeAtDate`. -/
theorem spec2proof_C5_cex :
    ((generateRegimes 0 2592000000 (fun _ => 0)).filter
      (fun reg => decide (reg.start ≤ 1728000000) &&
        decide ((1728000000 : ℚ) ≤ reg.stop))).length = 2 ∧
    (0 : ℚ) ≤ 1728000000 ∧ (1728000000 : ℚ) ≤ 2592000000 := by
  rw [regimes_cex_eval]
  refine ⟨?_, by norm_num, by norm_num⟩
  rfl

/-- C5 witness: the amended theorem applied at the counterexample's input,
extracting the lookup at the instant `0`. -/
theorem spec2proof_C5_witness :
    ∃ reg, getRegimeAtDate (generateRegimes 0 2592000000 (fun _ => 0)) 0 = some reg ∧
      reg.start ≤ 0 ∧ (0 : ℚ) ≤ reg.stop :=
  (spec2proof_C5 0 2592000000 (fun _ => 0) (by norm_num)
    (fun _ => ⟨le_refl 0, by norm_num⟩)).2 0 le_rfl (by norm_num)
